import Mathlib

/-!
Shallow embedding of the memo-map crate (src/lib.rs).

The crate implements an insert-only, mutex-guarded hash map `MemoMap<K, V, S>`
whose single field is `inner: Mutex<HashMap<K, V, S>>`.  In a sequential
functional model the mutex contributes no observable behaviour (every public
operation acquires it, works on the table, and releases it; poisoning is
recovered by `lock!`), so a container state is modelled by the contents of the
inner `HashMap`, represented as an association list with pairwise distinct
keys.  Rust's `Eq` on the key type is modelled by decidable propositional
equality.  Operations that mutate through `&self` are modelled by returning
the successor state explicitly.
-/

/-- The state of a `MemoMap<K, V, S>`: the contents of the inner `HashMap`
as an association list of key-value entries.  The hasher `S` and the mutex
carry no observable content in the sequential model. -/
structure MemoMap (K V : Type) where
  entries : List (K × V)
deriving DecidableEq

namespace MemoMap

variable {K V E S : Type} [DecidableEq K]

/-- `MemoMap::new`: creates an empty map (`Mutex::default()` holds an empty
`HashMap`). -/
def new : MemoMap K V := ⟨[]⟩

/-- `MemoMap::with_hasher`: creates an empty map with the given hash builder.
The hasher does not affect observable contents. -/
def with_hasher (_hash_builder : S) : MemoMap K V := ⟨[]⟩

/-- The `Default` impl: an empty map over `HashMap::default()`. -/
def default : MemoMap K V := ⟨[]⟩

/-- `HashMap::get` on the inner table (used by `MemoMap::get` and by
`get_or_try_insert`): the first entry whose key equals `k`, if any. -/
def get (m : MemoMap K V) (k : K) : Option V :=
  (m.entries.find? (fun p => decide (p.1 = k))).map Prod.snd

/-- `MemoMap::contains_key`: `HashMap::contains_key` on the inner table. -/
def contains_key (m : MemoMap K V) (k : K) : Bool :=
  m.entries.any (fun p => decide (p.1 = k))

/-- `MemoMap::insert` via the entry API: an occupied entry leaves the table
unchanged and returns `false`; a vacant entry receives the value and the call
returns `true`. -/
def insert (m : MemoMap K V) (k : K) (v : V) : MemoMap K V × Bool :=
  if m.entries.any (fun p => decide (p.1 = k)) then (m, false)
  else (⟨m.entries ++ [(k, v)]⟩, true)

/-- `HashMap::insert` (used inside `get_or_try_insert`): replaces the value of
an existing entry with an equal key, otherwise adds a fresh entry. -/
def hmInsert (m : MemoMap K V) (k : K) (v : V) : MemoMap K V :=
  if m.entries.any (fun p => decide (p.1 = k)) then
    ⟨m.entries.map (fun p => if p.1 = k then (p.1, v) else p)⟩
  else ⟨m.entries ++ [(k, v)]⟩

/-- `MemoMap::get_or_try_insert`: if the key is present return the stored
value; otherwise run the creator, propagate its error, and on success insert
the owned key with the produced value and re-fetch the freshly stored value.
The source re-fetches with `inner.get(key).unwrap()`; here the re-fetch is
`(get m' key).getD v`, and the lemma `get_hmInsert_self` below proves the
re-fetch always yields `some v` in this model (so the `getD` default is dead;
the borrowed-key situation in which the unwrap could be reached is analysed
separately in the `Borrowed` namespace).  The successor state is returned
alongside the result. -/
def get_or_try_insert (m : MemoMap K V) (key : K) (creator : Unit → Except E V) :
    MemoMap K V × Except E V :=
  match get m key with
  | some value => (m, Except.ok value)
  | none =>
    match creator () with
    | Except.error e => (m, Except.error e)
    | Except.ok v =>
      let m' := hmInsert m key v
      (m', Except.ok ((get m' key).getD v))

/-- `MemoMap::get_or_insert`: delegates to `get_or_try_insert` with an
infallible creator (`Infallible` is the empty type) and unwraps. -/
def get_or_insert (m : MemoMap K V) (key : K) (creator : Unit → V) :
    MemoMap K V × V :=
  match (get_or_try_insert m key (fun u => Except.ok (creator u)) :
      MemoMap K V × Except Empty V) with
  | (m', Except.ok v) => (m', v)
  | (_, Except.error e) => e.elim

/-- `MemoMap::len`: `HashMap::len` of the inner table. -/
def len (m : MemoMap K V) : Nat :=
  m.entries.length

/-- `MemoMap::is_empty`: `HashMap::is_empty` of the inner table. -/
def is_empty (m : MemoMap K V) : Bool :=
  m.entries.isEmpty

/-- `MemoMap::iter`: the sequence of key-value entries produced by the
iteration view (order is unspecified; the model fixes insertion order). -/
def iter (m : MemoMap K V) : List (K × V) :=
  m.entries

/-- `MemoMap::keys`: the `iter` sequence projected to keys. -/
def keys (m : MemoMap K V) : List K :=
  (iter m).map Prod.fst

/-- The `Clone` impl: locks the source and clones the inner `HashMap` into a
fresh mutex; the duplicate holds the same entries. -/
def clone (m : MemoMap K V) : MemoMap K V :=
  ⟨m.entries⟩

/-- Representation invariant of the inner `HashMap`: entry keys are pairwise
distinct. -/
def WF (m : MemoMap K V) : Prop :=
  (m.entries.map Prod.fst).Nodup

theorem get_eq_none_iff (m : MemoMap K V) (k : K) :
    get m k = none ↔ m.entries.any (fun p => decide (p.1 = k)) = false := by
  simp [get, List.find?_eq_none, List.any_eq_false]

theorem contains_key_eq_false_iff (m : MemoMap K V) (k : K) :
    contains_key m k = false ↔ get m k = none := by
  simp [contains_key, get_eq_none_iff, List.any_eq_false]

theorem get_append_single_self (m : MemoMap K V) (k : K) (v : V)
    (h : get m k = none) :
    get ⟨m.entries ++ [(k, v)]⟩ k = some v := by
  have hnone : m.entries.find? (fun p => decide (p.1 = k)) = none := by
    simp only [get, Option.map_eq_none'] at h
    exact h
  simp [get, List.find?_append, hnone]

theorem get_append_of_get_some (m : MemoMap K V) (k : K) (v : V)
    (l : List (K × V)) (h : get m k = some v) :
    get ⟨m.entries ++ l⟩ k = some v := by
  simp only [get, Option.map_eq_some'] at h
  obtain ⟨p, hp, hpv⟩ := h
  simp [get, List.find?_append, hp, hpv]

theorem hmInsert_of_get_none (m : MemoMap K V) (k : K) (v : V)
    (h : get m k = none) :
    hmInsert m k v = ⟨m.entries ++ [(k, v)]⟩ := by
  rw [get_eq_none_iff] at h
  simp [hmInsert, h]

theorem get_hmInsert_self (m : MemoMap K V) (k : K) (v : V)
    (h : get m k = none) :
    get (hmInsert m k v) k = some v := by
  rw [hmInsert_of_get_none m k v h]
  exact get_append_single_self m k v h

theorem get_or_try_insert_present (m : MemoMap K V) (k : K) (v : V)
    (c : Unit → Except E V) (h : get m k = some v) :
    get_or_try_insert m k c = (m, Except.ok v) := by
  simp [get_or_try_insert, h]

theorem get_or_try_insert_absent_err (m : MemoMap K V) (k : K) (e : E)
    (c : Unit → Except E V) (h : get m k = none) (hc : c () = Except.error e) :
    get_or_try_insert m k c = (m, Except.error e) := by
  simp [get_or_try_insert, h, hc]

theorem get_or_try_insert_absent_ok (m : MemoMap K V) (k : K) (v : V)
    (c : Unit → Except E V) (h : get m k = none) (hc : c () = Except.ok v) :
    get_or_try_insert m k c = (⟨m.entries ++ [(k, v)]⟩, Except.ok v) := by
  simp [get_or_try_insert, h, hc, hmInsert_of_get_none m k v h,
    get_hmInsert_self m k v h, get_append_single_self m k v h]

theorem get_or_insert_present (m : MemoMap K V) (k : K) (v : V)
    (f : Unit → V) (h : get m k = some v) :
    get_or_insert m k f = (m, v) := by
  have := get_or_try_insert_present (E := Empty) m k v
    (fun u => Except.ok (f u)) h
  simp [get_or_insert, this]

theorem get_or_insert_absent (m : MemoMap K V) (k : K)
    (f : Unit → V) (h : get m k = none) :
    get_or_insert m k f = (⟨m.entries ++ [(k, f ())]⟩, f ()) := by
  have := get_or_try_insert_absent_ok (E := Empty) m k (f ())
    (fun u => Except.ok (f u)) h rfl
  simp [get_or_insert, this]

theorem get_get_or_insert_self (m : MemoMap K V) (k : K) (f : Unit → V) :
    get (get_or_insert m k f).1 k = some (get_or_insert m k f).2 := by
  cases h : get m k with
  | some v => rw [get_or_insert_present m k v f h]; exact h
  | none =>
    rw [get_or_insert_absent m k f h]
    exact get_append_single_self m k (f ()) h

theorem insert_of_get_none (m : MemoMap K V) (k : K) (v : V)
    (h : get m k = none) :
    insert m k v = (⟨m.entries ++ [(k, v)]⟩, true) := by
  rw [get_eq_none_iff] at h
  simp [insert, h]

theorem insert_of_get_some (m : MemoMap K V) (k : K) (v w : V)
    (h : get m k = some w) :
    insert m k v = (m, false) := by
  have hc : m.entries.any (fun p => decide (p.1 = k)) = true := by
    simp only [get, Option.map_eq_some'] at h
    obtain ⟨p, hp, hpv⟩ := h
    refine List.any_eq_true.mpr ⟨p, List.mem_of_find?_eq_some hp, ?_⟩
    exact @List.find?_some _ (fun q => decide (q.1 = k)) p _ hp
  simp [insert, hc]

theorem not_mem_keys_of_get_none (m : MemoMap K V) (k : K)
    (h : get m k = none) : k ∉ m.entries.map Prod.fst := by
  rw [get_eq_none_iff, List.any_eq_false] at h
  intro hmem
  rw [List.mem_map] at hmem
  obtain ⟨p, hp, hpk⟩ := hmem
  have hne := h p hp
  simp only [decide_eq_true_eq] at hne
  exact hne hpk

theorem wf_new : WF (new : MemoMap K V) := by
  simp [WF, new]

theorem wf_append (m : MemoMap K V) (k : K) (v : V)
    (h : get m k = none) (hw : WF m) : WF ⟨m.entries ++ [(k, v)]⟩ := by
  simp only [WF, List.map_append, List.map_cons, List.map_nil]
  rw [List.nodup_append]
  refine ⟨hw, by simp, ?_⟩
  intro a ha hb
  simp only [List.mem_singleton] at hb
  exact not_mem_keys_of_get_none m k h (hb ▸ ha)

theorem wf_insert (m : MemoMap K V) (k : K) (v : V) (hw : WF m) :
    WF (insert m k v).1 := by
  cases h : get m k with
  | some w => rw [insert_of_get_some m k v w h]; exact hw
  | none => rw [insert_of_get_none m k v h]; exact wf_append m k v h hw

theorem wf_get_or_try_insert (m : MemoMap K V) (k : K)
    (c : Unit → Except E V) (hw : WF m) :
    WF (get_or_try_insert m k c).1 := by
  cases h : get m k with
  | some w => rw [get_or_try_insert_present m k w c h]; exact hw
  | none =>
    cases hc : c () with
    | error e => rw [get_or_try_insert_absent_err m k e c h hc]; exact hw
    | ok v =>
      rw [get_or_try_insert_absent_ok m k v c h hc]
      exact wf_append m k v h hw

theorem wf_get_or_insert (m : MemoMap K V) (k : K)
    (f : Unit → V) (hw : WF m) :
    WF (get_or_insert m k f).1 := by
  cases h : get m k with
  | some w => rw [get_or_insert_present m k w f h]; exact hw
  | none => rw [get_or_insert_absent m k f h]; exact wf_append m k (f ()) h hw

theorem find?_eq_some_of_mem_of_nodup (l : List (K × V)) (k : K) (v : V)
    (hw : (l.map Prod.fst).Nodup) (hm : (k, v) ∈ l) :
    l.find? (fun p => decide (p.1 = k)) = some (k, v) := by
  induction l with
  | nil => simp at hm
  | cons q l ih =>
    simp only [List.map_cons, List.nodup_cons] at hw
    rcases List.mem_cons.mp hm with hq | htail
    · subst hq
      exact List.find?_cons_of_pos l (by simp)
    · have hqk : ¬ (q.1 = k) := by
        intro hqk
        exact hw.1 (hqk ▸ List.mem_map.mpr ⟨(k, v), htail, rfl⟩)
      rw [List.find?_cons_of_neg l (by simpa using hqk)]
      exact ih hw.2 htail

theorem get_eq_some_iff_mem (m : MemoMap K V) (k : K) (v : V)
    (hw : WF m) : get m k = some v ↔ (k, v) ∈ m.entries := by
  constructor
  · intro h
    simp only [get, Option.map_eq_some'] at h
    obtain ⟨p, hp, hpv⟩ := h
    have hpk : p.1 = k := by
      simpa using @List.find?_some _ (fun q => decide (q.1 = k)) p _ hp
    have : p = (k, v) := by
      cases p
      simp only at hpk hpv
      rw [hpk, hpv]
    rw [← this]
    exact List.mem_of_find?_eq_some hp
  · intro hm
    simp [get, find?_eq_some_of_mem_of_nodup m.entries k v hw hm]

/-- The public operations on one container, as syntactic sequence elements:
each constructor records the arguments of one call.  The read-only operations
(`get`, `contains_key`, `len`, `is_empty`, `iter`, `keys`) acquire the lock
and leave the table unchanged. -/
inductive Op (K V E : Type) where
  | insertOp (k : K) (v : V)
  | getOrInsertOp (k : K) (f : Unit → V)
  | getOrTryInsertOp (k : K) (c : Unit → Except E V)
  | getOp (k : K)
  | containsKeyOp (k : K)
  | lenOp
  | isEmptyOp
  | iterOp
  | keysOp

/-- Runs one operation; the boolean records whether the call successfully
inserted a distinct new key (`insert` returning `true`, or a get-or-insert
variant that found the key absent and whose creator succeeded). -/
def step (m : MemoMap K V) : Op K V E → MemoMap K V × Bool
  | Op.insertOp k v => insert m k v
  | Op.getOrInsertOp k f => ((get_or_insert m k f).1, (get m k).isNone)
  | Op.getOrTryInsertOp k c =>
    match get_or_try_insert m k c with
    | (m2, Except.ok _) => (m2, (get m k).isNone)
    | (m2, Except.error _) => (m2, false)
  | Op.getOp _ => (m, false)
  | Op.containsKeyOp _ => (m, false)
  | Op.lenOp => (m, false)
  | Op.isEmptyOp => (m, false)
  | Op.iterOp => (m, false)
  | Op.keysOp => (m, false)

/-- Runs a sequence of operations from a given state, counting the calls that
successfully inserted a distinct new key. -/
def run (m : MemoMap K V) : List (Op K V E) → MemoMap K V × Nat
  | [] => (m, 0)
  | op :: ops =>
    let s := step m op
    let r := run s.1 ops
    (r.1, (if s.2 then 1 else 0) + r.2)

theorem len_step (m : MemoMap K V) (op : Op K V E) :
    len (step m op).1 = len m + (if (step m op).2 then 1 else 0) := by
  cases op with
  | insertOp k v =>
    cases h : get m k with
    | some w => simp [step, insert_of_get_some m k v w h]
    | none => simp [step, insert_of_get_none m k v h, len]
  | getOrInsertOp k f =>
    cases h : get m k with
    | some w => simp [step, get_or_insert_present m k w f h, h]
    | none => simp [step, get_or_insert_absent m k f h, h, len]
  | getOrTryInsertOp k c =>
    cases h : get m k with
    | some w => simp [step, get_or_try_insert_present m k w c h, h]
    | none =>
      cases hc : c () with
      | error e => simp [step, get_or_try_insert_absent_err m k e c h hc]
      | ok v => simp [step, get_or_try_insert_absent_ok m k v c h hc, h, len]
  | getOp k => simp [step]
  | containsKeyOp k => simp [step]
  | lenOp => simp [step]
  | isEmptyOp => simp [step]
  | iterOp => simp [step]
  | keysOp => simp [step]

theorem len_run (ops : List (Op K V E)) : ∀ m : MemoMap K V,
    len (run m ops).1 = len m + (run m ops).2 := by
  induction ops with
  | nil => intro m; simp [run]
  | cons op ops ih =>
    intro m
    show len (run (step m op).1 ops).1 =
      len m + ((if (step m op).2 then 1 else 0) + (run (step m op).1 ops).2)
    rw [ih, len_step]
    cases (step m op).2 <;> simp <;> omega

end MemoMap

/-!
The borrowed-key view of `get_or_try_insert`.  In the source the key
parameter has type `&Q` with `Q: Hash + Eq + ToOwned<Owned = K>` and
`K: Borrow<Q>`: the table stores owned keys of type `K`, lookups borrow each
stored key and compare it with the query under `Q`'s equality, while the
insertion inside `get_or_try_insert` stores `key.to_owned()` and compares
keys under `K`'s equality.  This namespace models that situation with the
two conversion functions explicit, in order to analyse the internal
`unwrap` on the re-fetch (`inner.get(key).unwrap()`).
-/

namespace Borrowed

variable {K Q V E : Type} [DecidableEq K] [DecidableEq Q]

/-- `HashMap::get` through the `Borrow` impl: stored keys are borrowed and
compared with the query `q` under the borrowed type's equality. -/
def getQ (borrow : K → Q) (l : List (K × V)) (q : Q) : Option V :=
  (l.find? (fun p => decide (borrow p.1 = q))).map Prod.snd

/-- `HashMap::insert` with an owned key: compares stored keys with the new
key under the owned type's equality; replaces the value on a hit, otherwise
adds a fresh entry. -/
def insertOwned (l : List (K × V)) (k : K) (v : V) : List (K × V) :=
  if l.any (fun p => decide (p.1 = k)) then
    l.map (fun p => if p.1 = k then (p.1, v) else p)
  else l ++ [(k, v)]

/-- `get_or_try_insert` with the borrowed key type made explicit: `borrow`
is `Borrow::borrow` of the owned key type and `toOwned` is
`ToOwned::to_owned` of the borrowed type.  A `none` result models the panic
of the internal `unwrap` when the re-fetch after the insertion fails to find
the just-inserted entry. -/
def get_or_try_insertQ (borrow : K → Q) (toOwned : Q → K)
    (l : List (K × V)) (q : Q) (creator : Unit → Except E V) :
    Option (List (K × V) × Except E V) :=
  match getQ borrow l q with
  | some v => some (l, Except.ok v)
  | none =>
    match creator () with
    | Except.error e => some (l, Except.error e)
    | Except.ok v =>
      let l2 := insertOwned l (toOwned q) v
      match getQ borrow l2 q with
      | some v2 => some (l2, Except.ok v2)
      | none => none

theorem getQ_insertOwned_self (borrow : K → Q) (l : List (K × V))
    (q : Q) (k : K) (v : V) (hb : borrow k = q)
    (h : getQ borrow l q = none) :
    getQ borrow (insertOwned l k v) q = some v := by
  have hfind : l.find? (fun p => decide (borrow p.1 = q)) = none := by
    simp only [getQ, Option.map_eq_none'] at h
    exact h
  have hany : l.any (fun p => decide (p.1 = k)) = false := by
    rw [List.any_eq_false]
    intro p hp hpk
    simp only [decide_eq_true_eq] at hpk
    have := List.find?_eq_none.mp hfind p hp
    simp only [decide_eq_true_eq] at this
    exact this (by rw [hpk, hb])
  simp [insertOwned, hany, getQ, List.find?_append, hfind, hb]

end Borrowed

namespace MemoMap

variable {K V E : Type} [DecidableEq K]

theorem contains_key_eq_true_of_get_some (m : MemoMap K V) (k : K) (v : V)
    (h : get m k = some v) : contains_key m k = true := by
  cases hc : contains_key m k with
  | true => rfl
  | false => rw [(contains_key_eq_false_iff m k).mp hc] at h; exact absurd h (by simp)

theorem get_insert_preserve (m : MemoMap K V) (k k2 : K) (v v2 : V)
    (h : get m k = some v) : get (insert m k2 v2).1 k = some v := by
  cases h2 : get m k2 with
  | some w => rw [insert_of_get_some m k2 v2 w h2]; exact h
  | none =>
    rw [insert_of_get_none m k2 v2 h2]
    exact get_append_of_get_some m k v _ h

theorem get_get_or_try_insert_preserve (m : MemoMap K V) (k k2 : K) (v : V)
    (c : Unit → Except E V) (h : get m k = some v) :
    get (get_or_try_insert m k2 c).1 k = some v := by
  cases h2 : get m k2 with
  | some w => rw [get_or_try_insert_present m k2 w c h2]; exact h
  | none =>
    cases hc : c () with
    | error e => rw [get_or_try_insert_absent_err m k2 e c h2 hc]; exact h
    | ok w =>
      rw [get_or_try_insert_absent_ok m k2 w c h2 hc]
      exact get_append_of_get_some m k v _ h

theorem get_get_or_insert_preserve (m : MemoMap K V) (k k2 : K) (v : V)
    (f : Unit → V) (h : get m k = some v) :
    get (get_or_insert m k2 f).1 k = some v := by
  cases h2 : get m k2 with
  | some w => rw [get_or_insert_present m k2 w f h2]; exact h
  | none =>
    rw [get_or_insert_absent m k2 f h2]
    exact get_append_of_get_some m k v _ h

end MemoMap

/-! The claims. -/

/-- Claim C1: for every key and creator, `get_or_try_insert` returns the
already-stored value when the key is present, with a result that is the same
for every creator (the creator is not invoked); when the key is absent and the
creator produces a value, it stores that value under the (owned copy of the)
key, and returns the freshly stored value, which `get` then finds; and
`get_or_insert` agrees with `get_or_try_insert` applied to the infallible
creator. -/
theorem getOrTryInsert_correct {K V E : Type} [DecidableEq K]
    (m : MemoMap K V) (k : K) (c : Unit → Except E V) :
    (∀ v, MemoMap.get m k = some v →
      MemoMap.get_or_try_insert m k c = (m, Except.ok v)) ∧
    (∀ v, MemoMap.get m k = none → c () = Except.ok v →
      MemoMap.get_or_try_insert m k c =
        (⟨m.entries ++ [(k, v)]⟩, Except.ok v) ∧
      MemoMap.get (⟨m.entries ++ [(k, v)]⟩ : MemoMap K V) k = some v) ∧
    (∀ f : Unit → V,
      (MemoMap.get_or_try_insert m k (fun u => Except.ok (f u)) :
          MemoMap K V × Except Empty V) =
        ((MemoMap.get_or_insert m k f).1,
          Except.ok (MemoMap.get_or_insert m k f).2)) := by
  refine ⟨?_, ?_, ?_⟩
  · intro v h
    exact MemoMap.get_or_try_insert_present m k v c h
  · intro v h hc
    exact ⟨MemoMap.get_or_try_insert_absent_ok m k v c h hc,
      MemoMap.get_append_single_self m k v h⟩
  · intro f
    cases h : MemoMap.get m k with
    | some v =>
      rw [MemoMap.get_or_insert_present m k v f h,
        MemoMap.get_or_try_insert_present m k v _ h]
    | none =>
      rw [MemoMap.get_or_insert_absent m k f h,
        MemoMap.get_or_try_insert_absent_ok m k (f ()) _ h rfl]

/-- Witness for C1 at a concrete input: a map holding the entry `(1, 10)`
returns the stored `10` untouched for any creator. -/
theorem getOrTryInsert_correct_witness :
    MemoMap.get (⟨[(1, 10)]⟩ : MemoMap Nat Nat) 1 = some 10 ∧
    MemoMap.get_or_try_insert (⟨[(1, 10)]⟩ : MemoMap Nat Nat) 1
      (fun _ => (Except.ok 99 : Except Nat Nat)) =
      (⟨[(1, 10)]⟩, Except.ok 10) :=
  ⟨by decide,
    (getOrTryInsert_correct ⟨[(1, 10)]⟩ 1 (fun _ => Except.ok 99)).1 10
      (by decide)⟩

/-- Claim C2: the first `insert` of an absent key stores the value, returns
`true` and increases `len` by one, and `get` then finds the value; every
`insert` of a key that is present (in particular every subsequent `insert`
of the same key, in any later state) returns `false` and leaves the table --
hence the stored value and the size -- unchanged, discarding the passed
value. -/
theorem insert_once {K V : Type} [DecidableEq K]
    (m : MemoMap K V) (k : K) (v v2 : V) :
    (MemoMap.contains_key m k = false →
      MemoMap.insert m k v = (⟨m.entries ++ [(k, v)]⟩, true) ∧
      MemoMap.len (MemoMap.insert m k v).1 = MemoMap.len m + 1 ∧
      MemoMap.get (MemoMap.insert m k v).1 k = some v ∧
      MemoMap.insert (MemoMap.insert m k v).1 k v2 =
        ((MemoMap.insert m k v).1, false)) ∧
    (∀ m2 : MemoMap K V, ∀ w : V, MemoMap.get m2 k = some w →
      MemoMap.insert m2 k v2 = (m2, false) ∧
      MemoMap.get (MemoMap.insert m2 k v2).1 k = some w) := by
  constructor
  · intro hc
    have h := (MemoMap.contains_key_eq_false_iff m k).mp hc
    have hins := MemoMap.insert_of_get_none m k v h
    have hget : MemoMap.get (MemoMap.insert m k v).1 k = some v := by
      rw [hins]
      exact MemoMap.get_append_single_self m k v h
    refine ⟨hins, ?_, hget, ?_⟩
    · rw [hins]
      simp [MemoMap.len]
    · exact MemoMap.insert_of_get_some _ k v2 v hget
  · intro m2 w hw
    have hins := MemoMap.insert_of_get_some m2 k v2 w hw
    rw [hins]
    exact ⟨rfl, hw⟩

/-- Witness for C2 at a concrete input, mirroring the crate's `test_insert`:
inserting `1` under the fresh key `23` succeeds and a second insert of `2`
under `23` is a rejected no-op. -/
theorem insert_once_witness :
    (MemoMap.contains_key (MemoMap.new : MemoMap Nat Nat) 23 = false ∧
      MemoMap.insert (MemoMap.new : MemoMap Nat Nat) 23 1 =
        (⟨[(23, 1)]⟩, true)) ∧
    (MemoMap.get (⟨[(23, 1)]⟩ : MemoMap Nat Nat) 23 = some 1 ∧
      MemoMap.insert (⟨[(23, 1)]⟩ : MemoMap Nat Nat) 23 2 =
        (⟨[(23, 1)]⟩, false)) :=
  ⟨⟨by decide, ((insert_once MemoMap.new 23 1 2).1 (by decide)).1⟩,
    ⟨by decide,
      ((insert_once (MemoMap.new : MemoMap Nat Nat) 23 1 2).2
        ⟨[(23, 1)]⟩ 1 (by decide)).1⟩⟩

/-- Claim C3: when the key is absent and the creator fails,
`get_or_try_insert` returns that error unchanged and performs no mutation:
the state is returned as it was, the key is still absent and `len` is
unchanged; a later `get_or_try_insert` of the same key with a succeeding
creator then inserts and succeeds normally. -/
theorem tryInsert_failure_atomic {K V E : Type} [DecidableEq K]
    (m : MemoMap K V) (k : K) (e : E) (c c2 : Unit → Except E V) (v : V)
    (h : MemoMap.get m k = none) (hc : c () = Except.error e) :
    MemoMap.get_or_try_insert m k c = (m, Except.error e) ∧
    MemoMap.contains_key (MemoMap.get_or_try_insert m k c).1 k = false ∧
    MemoMap.len (MemoMap.get_or_try_insert m k c).1 = MemoMap.len m ∧
    (c2 () = Except.ok v →
      MemoMap.get_or_try_insert (MemoMap.get_or_try_insert m k c).1 k c2 =
        (⟨m.entries ++ [(k, v)]⟩, Except.ok v) ∧
      MemoMap.get (⟨m.entries ++ [(k, v)]⟩ : MemoMap K V) k = some v) := by
  have herr := MemoMap.get_or_try_insert_absent_err m k e c h hc
  refine ⟨herr, ?_, ?_, ?_⟩
  · rw [herr]
    exact (MemoMap.contains_key_eq_false_iff m k).mpr h
  · rw [herr]
  · intro hc2
    rw [herr]
    exact ⟨MemoMap.get_or_try_insert_absent_ok m k v c2 h hc2,
      MemoMap.get_append_single_self m k v h⟩

/-- Witness for C3 at a concrete input: a failing creator for the absent key
`7` leaves the empty map empty and returns the error `42` unchanged. -/
theorem tryInsert_failure_atomic_witness :
    MemoMap.get (MemoMap.new : MemoMap Nat Nat) 7 = none ∧
    MemoMap.get_or_try_insert (MemoMap.new : MemoMap Nat Nat) 7
      (fun _ => (Except.error 42 : Except Nat Nat)) =
      (MemoMap.new, Except.error 42) :=
  ⟨by decide,
    (tryInsert_failure_atomic MemoMap.new 7 42 (fun _ => Except.error 42)
      (fun _ => Except.ok 5) 5 (by decide) rfl).1⟩

/-- Claim C4: `get_or_insert` for key `k` with creator `f1` followed by
`get_or_insert` for `k` with creator `f2` returns the same stored value both
times and leaves the state of the first call unchanged, and the result of the
second call is the same for every creator (`f2` is not invoked). -/
theorem getOrInsert_idempotent {K V : Type} [DecidableEq K]
    (m : MemoMap K V) (k : K) (f1 f2 : Unit → V) :
    MemoMap.get_or_insert (MemoMap.get_or_insert m k f1).1 k f2 =
      ((MemoMap.get_or_insert m k f1).1, (MemoMap.get_or_insert m k f1).2) ∧
    (∀ g : Unit → V,
      MemoMap.get_or_insert (MemoMap.get_or_insert m k f1).1 k g =
        MemoMap.get_or_insert (MemoMap.get_or_insert m k f1).1 k f2) := by
  have h := MemoMap.get_get_or_insert_self m k f1
  refine ⟨MemoMap.get_or_insert_present _ k _ f2 h, ?_⟩
  intro g
  rw [MemoMap.get_or_insert_present _ k _ g h,
    MemoMap.get_or_insert_present _ k _ f2 h]

/-- Claim C5: every mutating public operation preserves every existing
key-value association -- a stored value is never removed, replaced or changed
by a later `insert`, `get_or_insert` or `get_or_try_insert` (for any other or
the same key), and the set of stored keys only grows.  The remaining public
operations (`get`, `contains_key`, `len`, `is_empty`, `iter`, `keys`,
modelled as read-only) return no successor state at all. -/
theorem memoMap_monotone {K V E : Type} [DecidableEq K]
    (m : MemoMap K V) (k k2 : K) (v v2 : V) (f : Unit → V)
    (c : Unit → Except E V) (h : MemoMap.get m k = some v) :
    MemoMap.get (MemoMap.insert m k2 v2).1 k = some v ∧
    MemoMap.get (MemoMap.get_or_insert m k2 f).1 k = some v ∧
    MemoMap.get (MemoMap.get_or_try_insert m k2 c).1 k = some v ∧
    MemoMap.contains_key (MemoMap.insert m k2 v2).1 k = true ∧
    MemoMap.contains_key (MemoMap.get_or_insert m k2 f).1 k = true ∧
    MemoMap.contains_key (MemoMap.get_or_try_insert m k2 c).1 k = true := by
  have h1 := MemoMap.get_insert_preserve m k k2 v v2 h
  have h2 := MemoMap.get_get_or_insert_preserve m k k2 v f h
  have h3 := MemoMap.get_get_or_try_insert_preserve m k k2 v c h
  exact ⟨h1, h2, h3,
    MemoMap.contains_key_eq_true_of_get_some _ k v h1,
    MemoMap.contains_key_eq_true_of_get_some _ k v h2,
    MemoMap.contains_key_eq_true_of_get_some _ k v h3⟩

/-- Witness for C5 at a concrete input: the entry `(1, 10)` survives an
`insert`, a `get_or_insert` and a `get_or_try_insert` for the fresh key `2`. -/
theorem memoMap_monotone_witness :
    MemoMap.get (⟨[(1, 10)]⟩ : MemoMap Nat Nat) 1 = some 10 ∧
    (MemoMap.get
        (MemoMap.insert (⟨[(1, 10)]⟩ : MemoMap Nat Nat) 2 20).1 1 = some 10 ∧
      MemoMap.get
        (MemoMap.get_or_insert (⟨[(1, 10)]⟩ : MemoMap Nat Nat) 2
          (fun _ => 20)).1 1 = some 10 ∧
      MemoMap.get
        (MemoMap.get_or_try_insert (⟨[(1, 10)]⟩ : MemoMap Nat Nat) 2
          (fun _ => (Except.ok 20 : Except Nat Nat))).1 1 = some 10) :=
  ⟨by decide,
    have h := memoMap_monotone (⟨[(1, 10)]⟩ : MemoMap Nat Nat) 1 2 10 20
      (fun _ => 20) (fun _ => (Except.ok 20 : Except Nat Nat)) (by decide)
    ⟨h.1, h.2.1, h.2.2.1⟩⟩

/-- Claim C7: in `get_or_try_insert`, the re-fetch after a successful
insertion always finds the just-inserted entry -- the internal `unwrap`
(modelled by the `none` outcome of `Borrowed.get_or_try_insertQ`) is never
reached -- provided the caller obligation holds that borrowing the owned copy
of the queried key yields a key equal to the query, i.e. that equality of the
borrowed representation agrees with that of the owned key type. -/
theorem refetch_unwrap_safe {K Q V E : Type} [DecidableEq K] [DecidableEq Q]
    (borrow : K → Q) (toOwned : Q → K) (l : List (K × V)) (q : Q)
    (creator : Unit → Except E V) (hb : borrow (toOwned q) = q) :
    (Borrowed.get_or_try_insertQ borrow toOwned l q creator).isSome = true := by
  cases h : Borrowed.getQ borrow l q with
  | some v => simp [Borrowed.get_or_try_insertQ, h]
  | none =>
    cases hc : creator () with
    | error e => simp [Borrowed.get_or_try_insertQ, h, hc]
    | ok v =>
      have hre := Borrowed.getQ_insertOwned_self borrow l q (toOwned q) v hb h
      simp [Borrowed.get_or_try_insertQ, h, hc, hre]

/-- Witness for C7 at a concrete input: with the identity `Borrow` and
`ToOwned` impls on `Nat` keys, inserting into the empty map through
`get_or_try_insert` does not reach the panic outcome. -/
theorem refetch_unwrap_safe_witness :
    ((fun q : Nat => q) ((fun q : Nat => q) 3) = 3) ∧
    (Borrowed.get_or_try_insertQ (fun q : Nat => q) (fun q : Nat => q)
      ([] : List (Nat × Nat)) 3
      (fun _ => (Except.ok 7 : Except Nat Nat))).isSome = true :=
  ⟨rfl,
    refetch_unwrap_safe (fun q : Nat => q) (fun q : Nat => q) [] 3
      (fun _ => (Except.ok 7 : Except Nat Nat)) rfl⟩

/-- Claim C8: over every sequence of public operations run from a fresh
container, `len` equals the number of calls that successfully inserted a
distinct new key (an `insert` returning `true`, or a get-or-insert variant
inserting on an absent key); `is_empty` holds exactly when `len` is zero; and
`new`, `with_hasher` and `default` all construct a container with `len`
zero. -/
theorem count_consistency {K V E S : Type} [DecidableEq K]
    (ops : List (MemoMap.Op K V E)) :
    MemoMap.len (MemoMap.run (MemoMap.new : MemoMap K V) ops).1 =
      (MemoMap.run (MemoMap.new : MemoMap K V) ops).2 ∧
    (∀ m : MemoMap K V, MemoMap.is_empty m = decide (MemoMap.len m = 0)) ∧
    MemoMap.len (MemoMap.new : MemoMap K V) = 0 ∧
    (∀ s : S, MemoMap.len (MemoMap.with_hasher s : MemoMap K V) = 0) ∧
    MemoMap.len (MemoMap.default : MemoMap K V) = 0 := by
  refine ⟨?_, ?_, rfl, fun s => rfl, rfl⟩
  · rw [MemoMap.len_run]
    simp [MemoMap.new, MemoMap.len]
  · intro m
    cases m with
    | mk entries => cases entries <;> simp [MemoMap.is_empty, MemoMap.len]

/-- Claim C9: for a container state satisfying the hash-table representation
invariant (pairwise distinct keys, established for the fresh container and
preserved by every operation), `iter` yields exactly the stored key-value
pairs, each exactly once, each pair carrying the same stored value that `get`
returns, and `keys` yields exactly the stored keys. -/
theorem iter_complete {K V E : Type} [DecidableEq K]
    (m : MemoMap K V) (k : K) (v : V) (f : Unit → V)
    (c : Unit → Except E V) :
    (MemoMap.WF m →
      (((k, v) ∈ MemoMap.iter m) ↔ MemoMap.get m k = some v) ∧
      (MemoMap.iter m).Nodup ∧
      ((k ∈ MemoMap.keys m) ↔ MemoMap.contains_key m k = true)) ∧
    MemoMap.keys m = (MemoMap.iter m).map Prod.fst ∧
    MemoMap.WF (MemoMap.new : MemoMap K V) ∧
    (MemoMap.WF m → MemoMap.WF (MemoMap.insert m k v).1) ∧
    (MemoMap.WF m → MemoMap.WF (MemoMap.get_or_insert m k f).1) ∧
    (MemoMap.WF m → MemoMap.WF (MemoMap.get_or_try_insert m k c).1) := by
  refine ⟨?_, rfl, MemoMap.wf_new, MemoMap.wf_insert m k v,
    MemoMap.wf_get_or_insert m k f, MemoMap.wf_get_or_try_insert m k c⟩
  intro hw
  refine ⟨(MemoMap.get_eq_some_iff_mem m k v hw).symm,
    List.Nodup.of_map Prod.fst hw, ?_⟩
  simp [MemoMap.keys, MemoMap.iter, MemoMap.contains_key, List.any_eq_true,
    List.mem_map]

/-- Witness for C9 at a concrete input, mirroring the crate's `test_iter`:
the three-entry map yields exactly its three pairs. -/
theorem iter_complete_witness :
    MemoMap.WF (⟨[(1, 10), (2, 20), (3, 30)]⟩ : MemoMap Nat Nat) ∧
    (((1, 10) ∈ MemoMap.iter
        (⟨[(1, 10), (2, 20), (3, 30)]⟩ : MemoMap Nat Nat)) ↔
      MemoMap.get (⟨[(1, 10), (2, 20), (3, 30)]⟩ : MemoMap Nat Nat) 1 =
        some 10) :=
  ⟨by unfold MemoMap.WF; decide,
    ((iter_complete (⟨[(1, 10), (2, 20), (3, 30)]⟩ : MemoMap Nat Nat) 1 10
      (fun _ => 10) (fun _ => (Except.ok 10 : Except Nat Nat))).1
      (by unfold MemoMap.WF; decide)).1⟩

/-- Claim C10: `clone` produces a container holding duplicates of every entry
of the source at clone time (same length, same stored value for every key),
and a subsequent insertion of a new key into the source yields a successor
state with one more entry while the clone still lacks the new key and keeps
its length -- the clone shares no storage with the source's successor
states. -/
theorem clone_independent {K V : Type} [DecidableEq K]
    (m : MemoMap K V) (k knew : K) (v : V) :
    MemoMap.clone m = m ∧
    MemoMap.len (MemoMap.clone m) = MemoMap.len m ∧
    MemoMap.get (MemoMap.clone m) k = MemoMap.get m k ∧
    (MemoMap.get m knew = none →
      MemoMap.get (MemoMap.insert m knew v).1 knew = some v ∧
      MemoMap.get (MemoMap.clone m) knew = none ∧
      MemoMap.len (MemoMap.insert m knew v).1 =
        MemoMap.len (MemoMap.clone m) + 1) := by
  refine ⟨rfl, rfl, rfl, ?_⟩
  intro h
  have hins := MemoMap.insert_of_get_none m knew v h
  refine ⟨?_, h, ?_⟩
  · rw [hins]
    exact MemoMap.get_append_single_self m knew v h
  · rw [hins]
    simp [MemoMap.len, MemoMap.clone]

/-- Witness for C10 at a concrete input: cloning `[(1, 10)]` and inserting
the fresh key `2` into the source leaves the clone without key `2` and with
its old length. -/
theorem clone_independent_witness :
    MemoMap.get (⟨[(1, 10)]⟩ : MemoMap Nat Nat) 2 = none ∧
    (MemoMap.get (MemoMap.insert (⟨[(1, 10)]⟩ : MemoMap Nat Nat) 2 20).1 2 =
        some 20 ∧
      MemoMap.get (MemoMap.clone (⟨[(1, 10)]⟩ : MemoMap Nat Nat)) 2 = none ∧
      MemoMap.len (MemoMap.insert (⟨[(1, 10)]⟩ : MemoMap Nat Nat) 2 20).1 =
        MemoMap.len (MemoMap.clone (⟨[(1, 10)]⟩ : MemoMap Nat Nat)) + 1) :=
  ⟨by decide,
    (clone_independent (⟨[(1, 10)]⟩ : MemoMap Nat Nat) 1 2 20).2.2.2
      (by decide)⟩
